import Mathlib

/-!
Verification of the PyCav population-balance solver
(`src/PyCav/time_advancer.py` and `src/PyCav/bubble_state.py`).

The Python code computes with IEEE-754 binary64 floats over numpy arrays.
The shallow embedding below uses exact rationals (`ℚ`) for all array
contents and configuration values, `ℝ` where the source applies
transcendental functions (`np.sqrt`, `np.exp`, `np.pi`), lists for numpy
arrays, and `Except String` for `raise`.  For the one claim whose truth
hinges on binary64 rounding (the number of recorded steps in `run` when
`dt = 0.1`), the time accumulator `time += dt` is additionally modelled
bit-exactly: `roundPos`/`fp64add` implement round-to-nearest, ties-to-even
at 53 significant bits, which is exactly binary64 addition in the range
exercised here (no overflow, no subnormals, positive arguments).
-/

namespace PyCav

/-! ### Binary64 model for the run-loop time accumulator

The run loop of the round-trip scenario accumulates
`time += dt` in binary64 with `dt` the double nearest `0.1` and `T = 1.0`.
Every time value arising there is a nonnegative double below 2, hence an
integer multiple of `2 ^ (-56)`; the model therefore carries
`time * 2 ^ 56` as a natural number.  `fpRound56` rounds such a scaled
value to 53 significant bits (round to nearest, ties to even), which is
exactly the binary64 rounding of the corresponding real value, and
`fp64add56` is binary64 addition of two scaled doubles. -/

/-- Fuel-driven floor of the base-2 logarithm (`natLog2 64 n` is exact
for every `n < 2 ^ 64`). -/
def natLog2 : ℕ → ℕ → ℕ
  | 0, _ => 0
  | fuel + 1, n => if n ≤ 1 then 0 else natLog2 fuel (n / 2) + 1

/-- Round a `2 ^ 56`-scaled value to 53 significant bits, ties to even. -/
def fpRound56 (s : ℕ) : ℕ :=
  let k := natLog2 64 s
  if k < 53 then s
  else
    let u := 2 ^ (k - 52)
    let q := s / u
    let r := s % u
    let q' :=
      if u < 2 * r then q + 1
      else if 2 * r < u then q
      else if q % 2 = 0 then q else q + 1
    q' * u

/-- Binary64 addition on `2 ^ 56`-scaled doubles: the semantics of the
Python statement `self.time += self.dt` in the round-trip scenario. -/
def fp64add56 (x y : ℕ) : ℕ := fpRound56 (x + y)

/-- The binary64 value of the Python literal `0.1`
(`3602879701896397 * 2 ^ (-55)`), scaled by `2 ^ 56`. -/
def dtScaled : ℕ := 7205759403792794

/-- The final time `T = 1`, scaled by `2 ^ 56`. -/
def oneScaled : ℕ := 2 ^ 56

/-! ### State tables and elementwise operations

`self.state.vals` is a 2-D numpy array of shape (NR0, num_RV_dim);
a `Vals2` is the same table as a list of rows.  numpy `+` and scalar `*`
are elementwise. -/

/-- A state table: one row of state components per quadrature node. -/
def Vals2 : Type := List (List ℚ)

/-- A 3-D value array (leading sample/time axis), as passed to the
filtered branches of `get_quad`. -/
def Vals3 : Type := List (List (List ℚ))

/-- Elementwise addition of two state tables (numpy `+`). -/
def m2add (a b : Vals2) : Vals2 := List.zipWith (List.zipWith (· + ·)) a b

/-- Elementwise subtraction of two state tables (numpy `-`). -/
def m2sub (a b : Vals2) : Vals2 := List.zipWith (List.zipWith (· - ·)) a b

/-- Scalar multiple of a state table (numpy scalar `*`). -/
def m2smul (c : ℚ) (a : Vals2) : Vals2 := a.map (List.map (fun x => c * x))

/-- The identically-zero right-hand side of matching shape: the model of a
bubble model whose `rhs` returns zeros (the zero-RHS model of the
round-trip scenario). -/
def zeroRhs2 (v : Vals2) (_p : ℚ) : Vals2 := v.map (List.map (fun _ => (0:ℚ)))

/-! ### Time steppers (`time_advancer.euler`, `rk12`, `rk23`, `err`) -/

/-- `time_advancer.euler`: `vals ← f0 + dt * rhs(f0, p(time))`. -/
def euler (rhs : Vals2 → ℚ → Vals2) (wave : ℚ → ℚ) (dt t : ℚ) (f0 : Vals2) : Vals2 :=
  let l1 := rhs f0 (wave t)
  m2add f0 (m2smul dt l1)

/-- `time_advancer.rk12`: returns (accepted state `mom`, embedded Euler
estimate `mome`); the source stores `mom` into `vals` and
`err(mom, mome)` into `ts_error`. -/
def rk12 (rhs : Vals2 → ℚ → Vals2) (wave : ℚ → ℚ) (dt t : ℚ) (f0 : Vals2) : Vals2 × Vals2 :=
  let l1 := rhs f0 (wave t)
  let f1 := m2add f0 (m2smul dt l1)
  let mome := f1
  let L := rhs f1 (wave (t + dt))
  let mom := m2add (m2smul (1/2) f0) (m2smul (1/2) (m2add f1 (m2smul dt L)))
  (mom, mome)

/-- `time_advancer.rk23`: returns (accepted SSP-RK3 state `mom`, embedded
SSP-RK2 estimate `mome`). -/
def rk23 (rhs : Vals2 → ℚ → Vals2) (wave : ℚ → ℚ) (dt t : ℚ) (f0 : Vals2) : Vals2 × Vals2 :=
  let l1 := rhs f0 (wave t)
  let f1 := m2add f0 (m2smul dt l1)
  let L := rhs f1 (wave (t + dt))
  let mome := m2add (m2smul (1/2) f0) (m2smul (1/2) (m2add f1 (m2smul dt L)))
  let f2 := m2add (m2smul (3/4) f0) (m2smul (1/4) (m2add f1 (m2smul dt L)))
  let L2 := rhs f2 (wave (t + dt/2))
  let mom := m2add (m2smul (1/3) f0) (m2smul (2/3) (m2add f2 (m2smul dt L2)))
  (mom, mome)

/-- Sum of squares of a list (the square of the Frobenius norm). -/
def sumSq (l : List ℚ) : ℚ := (l.map (fun x => x * x)).sum

/-- `np.linalg.norm` of a table: Euclidean norm of the flattened entries. -/
noncomputable def vnorm (v : Vals2) : ℝ := Real.sqrt ((sumSq v.flatten : ℚ) : ℝ)

/-- `time_advancer.err`: `norm(fine - coarse) / norm(fine)`. -/
noncomputable def ts_err (fine coarse : Vals2) : ℝ := vnorm (m2sub fine coarse) / vnorm fine

/-! ### Adaptive step control (`time_advancer.adapt_stepsize`)

The source computes `error_fraction = np.sqrt(0.5 * error_tol / ts_error)`
and then clamps.  The square root is taken as an input here (it ranges
over all of `[0, ∞)`, and the theorems below hold for every rational
value of it, hence for every error estimate including zero — where the
Python expression yields `inf`, clamped to factor 2 exactly like any
input ≥ 2). -/

/-- `time_advancer.adapt_stepsize` after the square root:
`factor = min(max(error_fraction, 0.3), 2.0)`;
`dt ← min(max(0.9 * factor * dt, min_time_step), max_time_step)`.
In the source `min_time_step` is the configured `dt` and
`max_time_step = 1.0e5`. -/
def adapt_stepsize (error_fraction dt min_time_step max_time_step : ℚ) : ℚ :=
  let time_step_factor := min (max error_fraction (3/10)) 2
  let new_time_step := time_step_factor * dt
  min (max (9/10 * new_time_step) min_time_step) max_time_step

/-! ### The run loop (`time_advancer.run`)

Each iteration appends `time` to `times` and a snapshot of `vals` to
`save`, advances the state, rounds `time + dt` to binary64, and stops as
soon as the accumulated time reaches `T` (the adaptive branch is not
taken for `method = Euler`).  The recursion is driven by a fuel counter
that merely bounds the number of modelled iterations; with enough fuel
it mirrors the `while` loop of the source exactly. -/

/-- The sequence of recorded times of `run`, as `2 ^ 56`-scaled
doubles. -/
def runTimes (fuel : ℕ) (T dt t : ℕ) : List ℕ :=
  match fuel with
  | 0 => []
  | fuel + 1 =>
    let t' := fp64add56 t dt
    if T ≤ t' then [t] else t :: runTimes fuel T dt t'

/-- `time_advancer.run` for a non-adaptive scheme: returns the recorded
times (scaled), the recorded state snapshots, and the final state table.
The stepper receives the scaled current time. -/
def run (fuel : ℕ) (T dt t : ℕ) (v : Vals2) (adv : ℕ → Vals2 → Vals2) :
    List ℕ × List Vals2 × Vals2 :=
  match fuel with
  | 0 => ([], [], v)
  | fuel + 1 =>
    let v' := adv t v
    let t' := fp64add56 t dt
    if T ≤ t' then ([t], [v], v')
    else
      let rest := run fuel T dt t' v' adv
      (t :: rest.1, v :: rest.2.1, rest.2.2)

/-! ### Gauss-Hermite Newton iteration (`bubble_state.init_GH`)

The inner `while True` loop of `init_GH` refines one root.  Its update
`z ← z - p1/pp` (with `p1`, `pp` computed from the Hermite recurrence
seeded with `pi ** (-0.25)`) is a function of `z` only; it is abstracted
here as a parameter `g` because its value is irrational.  The loop state
is `(its, z, z1)` with `its = 1`, `z1 = 0.0` on entry; the loop stops as
soon as `its > 100` (mxit) or `|z - z1| <= 3e-14` (psmall) and the source
then stores `z` into `phi_tld[i]` unconditionally — no exception of any
kind is raised.  The fuel argument is `101`, enough for every possible
pass through the loop, as proved below. -/

/-- `psmall = 3.0e-14`. -/
def psmall : ℚ := 3 / 10 ^ 14

/-- One root-refinement loop of `init_GH`, returning the accepted root
and the final iteration counter. -/
def ghNewtonGo (g : ℚ → ℚ) : ℕ → ℕ → ℚ → ℚ → ℚ × ℕ
  | 0, its, z, _ => (z, its)
  | fuel + 1, its, z, z1 =>
    if 100 < its ∨ |z - z1| ≤ psmall then (z, its)
    else ghNewtonGo g fuel (its + 1) (g z) z

/-- The root-refinement loop as entered by the source: `its = 1`,
`z1 = 0.0`. -/
def ghNewtonLoop (g : ℚ → ℚ) (z : ℚ) : ℚ × ℕ := ghNewtonGo g 101 1 z 0

/-! ### Gauss-Hermite mirroring and radius map (`init_GH`, tail)

After the per-root loop, `init_GH` holds half of the roots: the loop body
ran for `i < m`, `m = (Npt+1)//2`, storing `phi_tld[i] = z_i` and
`phi_tld[Npt-i-1] = -z_i` (for odd `Npt` the middle entry is written
twice in the same iteration and ends as `-z_{m-1}`).  It then maps
`R0 = exp(sqrt(2) * sigR0 * phi_tld)` and reverses the array.  The
computed half-roots `z_i` are abstracted as a function `z : ℕ → ℝ`; the
monotonicity theorem assumes exactly what the Hermite root finder
delivers: the half-roots are strictly decreasing, nonnegative, and (for
even `Npt`, where no root is zero) positive. -/

/-- The full root array `phi_tld` after the mirroring writes:
entry `p` holds `z p` for `p < Npt / 2` and `-z (Npt - 1 - p)` above. -/
noncomputable def ghFullRoot (Npt : ℕ) (z : ℕ → ℝ) (p : ℕ) : ℝ :=
  if p < Npt / 2 then z p else -(z (Npt - 1 - p))

/-- `R0 = np.exp(np.sqrt(2.0) * sigR0 * phi_tld)`, before the final
reversal. -/
noncomputable def ghRadiusPre (sigR0 : ℝ) (Npt : ℕ) (z : ℕ → ℝ) (p : ℕ) : ℝ :=
  Real.exp (Real.sqrt 2 * sigR0 * ghFullRoot Npt z p)

/-- The final `R0` of `init_GH`: the reversal
`phi_tld[Npt-i-1] = R0[i]` makes entry `p` equal to the pre-reversal
entry `Npt - 1 - p`. -/
noncomputable def ghRadius (sigR0 : ℝ) (Npt : ℕ) (z : ℕ → ℝ) (p : ℕ) : ℝ :=
  ghRadiusPre sigR0 Npt z (Npt - 1 - p)

/-! ### Weight normalization and the mono node -/

/-- The final normalization `self.w /= np.sum(self.w)` shared by
`init_simp` and `init_GL`. -/
def normalizeW (w : List ℚ) : List ℚ := w.map (fun x => x / w.sum)

/-- `init_mono`: `w = np.ones(1)`, `R0 = np.ones(1) * muR0`. -/
def monoW : List ℚ := [1]

/-- `init_GH`, weight normalization: `self.w /= np.sqrt(np.pi)` applied
to the raw weights `2 / pp**2`. -/
noncomputable def ghNormalizeW (raw : List ℝ) : List ℝ :=
  raw.map (fun x => x / Real.sqrt Real.pi)

/-! ### Simpson spacing (`init_simp`) -/

/-- The `dR0` array of `init_simp`: `dR0[i] = R0[i+1] - R0[i]` for
`i < NR0 - 1`, then `dR0[NR0-1] = dR0[NR0-2]`. -/
def mk_dR0 (R0 : List ℚ) : List ℚ :=
  let N := R0.length
  let d := (List.range (N - 1)).foldl
    (fun d i => d.set i (R0.getD (i + 1) 0 - R0.getD i 0)) (List.replicate N 0)
  d.set (N - 1) (d.getD (N - 2) 0)

/-! ### The moment estimator (`bubble_state.get_quad`)

`get_quad` has three disjoint code paths selected by its flags: the plain
path, the ensemble-filtered path (`Nfilt > 0`) and the time-filtered path
(`Tfilt`, which calls the external collaborator `moments.get_G`).  Each
path loops over `enumerate(self.moments)` filling the preallocated `ret`
array and raises on an unsupported moment arity.  The loops below thread
the whole mutable context (`w`, `R0`, the passed `vals`, and `ret`)
through the iteration, so that which components the loop writes is a
theorem rather than a typing accident. -/

/-- The fields of `bubble_state` that `get_quad` reads. -/
structure QuadCtx where
  w : List ℚ
  R0 : List ℚ
  moments : List (List ℕ)
  Nmom : ℕ
  num_RV_dim : ℕ
  NR0 : ℕ

/-- Read `vals[i, j]` from a 2-D table. -/
def idx2 (v : Vals2) (i j : ℕ) : ℚ := (v.getD i []).getD j 0

/-- Read `vals[q, i, j]` from a 3-D array. -/
def idx3 (v : Vals3) (q i j : ℕ) : ℚ := ((v.getD q []).getD i []).getD j 0

/-- Loop body accumulator of `get_quad`: the readable context, the passed
`vals`, and the output array `ret`. -/
def QuadAcc (V : Type) : Type := QuadCtx × V × List ℚ

/-- The plain-mode loop of `get_quad` over `enumerate(self.moments)`:
`ret[k] = np.sum(w * vals[:,0]**mom[0] * vals[:,1]**mom[1])`, with the
three-exponent variant multiplying by `R0**mom[2]`, and an exception for
any other arity. -/
def quadPlainGo : QuadAcc Vals2 → List (ℕ × List ℕ) → Except String (QuadAcc Vals2)
  | acc, [] => .ok acc
  | acc, (k, mom) :: rest =>
    let c := acc.1
    let v := acc.2.1
    let ret := acc.2.2
    if c.num_RV_dim = 2 ∧ mom.length = 2 then
      let s := ((List.range c.NR0).map (fun i =>
        c.w.getD i 0 * idx2 v i 0 ^ mom.getD 0 0 * idx2 v i 1 ^ mom.getD 1 0)).sum
      quadPlainGo (c, v, ret.set k s) rest
    else if c.num_RV_dim = 2 ∧ mom.length = 3 then
      let s := ((List.range c.NR0).map (fun i =>
        c.w.getD i 0 * idx2 v i 0 ^ mom.getD 0 0 * idx2 v i 1 ^ mom.getD 1 0
          * c.R0.getD i 0 ^ mom.getD 2 0)).sum
      quadPlainGo (c, v, ret.set k s) rest
    else .error "unsupported moment"

/-- `get_quad` in plain (unfiltered) mode.  On an exception the Python
objects are left as they were, so the context and `vals` are returned
unchanged alongside the error. -/
def get_quad_plain (c : QuadCtx) (vals : Vals2) :
    QuadCtx × Vals2 × Except String (List ℚ) :=
  match quadPlainGo (c, vals, List.replicate c.Nmom 0) c.moments.enum with
  | .ok (c', v', ret) => (c', v', .ok ret)
  | .error e => (c, vals, .error e)

/-- The ensemble-filtered loop (`Nfilt > 0` branch):
`G = (Σ_{q<Nfilt} vals[q,:,0]**mom[0] * vals[q,:,1]**mom[1]) / Nfilt`,
`ret[k] = np.sum(w * G)`. -/
def quadNfiltGo (Nfilt : ℕ) : QuadAcc Vals3 → List (ℕ × List ℕ) → Except String (QuadAcc Vals3)
  | acc, [] => .ok acc
  | acc, (k, mom) :: rest =>
    let c := acc.1
    let v := acc.2.1
    let ret := acc.2.2
    if c.num_RV_dim = 2 ∧ mom.length = 2 then
      let G : List ℚ := (List.range c.NR0).map (fun i =>
        (((List.range Nfilt).map (fun q =>
          idx3 v q i 0 ^ mom.getD 0 0 * idx3 v q i 1 ^ mom.getD 1 0)).sum) / (Nfilt : ℚ))
      let s := ((List.range c.NR0).map (fun i => c.w.getD i 0 * G.getD i 0)).sum
      quadNfiltGo Nfilt (c, v, ret.set k s) rest
    else .error "unsupported moment"

/-- `get_quad` in ensemble-filtered mode. -/
def get_quad_Nfilt (c : QuadCtx) (Nfilt : ℕ) (vals : Vals3) :
    QuadCtx × Vals3 × Except String (List ℚ) :=
  match quadNfiltGo Nfilt (c, vals, List.replicate c.Nmom 0) c.moments.enum with
  | .ok (c', v', ret) => (c', v', .ok ret)
  | .error e => (c, vals, .error e)

/-- The time-filtered loop (`Tfilt` branch): `Nt = len(vals[:,0,0])`,
`G = get_G(vals, mom, Nt, shifts, NR0)` via the external collaborator
(here a function parameter), `ret[k] = np.sum(w * G)`. -/
def quadTfiltGo (getG : Vals3 → List ℕ → ℕ → List ℤ → ℕ → List ℚ) (shifts : List ℤ) :
    QuadAcc Vals3 → List (ℕ × List ℕ) → Except String (QuadAcc Vals3)
  | acc, [] => .ok acc
  | acc, (k, mom) :: rest =>
    let c := acc.1
    let v := acc.2.1
    let ret := acc.2.2
    if c.num_RV_dim = 2 ∧ mom.length = 2 then
      let Nt := v.length
      let G := getG v mom Nt shifts c.NR0
      let s := ((List.range c.NR0).map (fun i => c.w.getD i 0 * G.getD i 0)).sum
      quadTfiltGo getG shifts (c, v, ret.set k s) rest
    else .error "unsupported moment"

/-- `get_quad` in time-filtered mode. -/
def get_quad_Tfilt (c : QuadCtx) (getG : Vals3 → List ℕ → ℕ → List ℤ → ℕ → List ℚ)
    (shifts : List ℤ) (vals : Vals3) :
    QuadCtx × Vals3 × Except String (List ℚ) :=
  match quadTfiltGo getG shifts (c, vals, List.replicate c.Nmom 0) c.moments.enum with
  | .ok (c', v', ret) => (c', v', .ok ret)
  | .error e => (c, vals, .error e)

/-! ### Population configuration (`bubble_state.set_defaults`,
`parse_config`, `__init__`) -/

/-- The population configuration dictionary: a field is `none` when the
key is absent. -/
structure PopConfig where
  NR0 : Option ℕ := none
  shape : Option String := none
  binning : Option String := none
  sigR0 : Option ℚ := none
  muR0 : Option ℚ := none
  moments : Option (List (List ℕ)) := none
  Nfilt : Option ℕ := none
  Tfilt : Option ℚ := none

/-- The attributes set by `set_defaults` and `parse_config`. -/
structure PopParsed where
  NR0 : ℕ
  shape : String
  binning : String
  sigR0 : ℚ
  muR0 : ℚ
  moments : List (List ℕ)
  Nmom : ℕ
  filter : Bool
  Nfilt : ℕ
  Tfilt : ℚ

/-- `bubble_state.set_defaults` followed by `bubble_state.parse_config`:
overrides from the dictionary, then the filter-key check, which raises
when both `Nfilt` and `Tfilt` are present. -/
def bs_parse_config (c : PopConfig) : Except String PopParsed :=
  let NR0 := c.NR0.getD 1
  let shape := c.shape.getD "lognormal"
  let binning := c.binning.getD "Simpson"
  let sigR0 := c.sigR0.getD (3/10)
  let muR0 := c.muR0.getD 1
  let moments := c.moments.getD [[0, 0]]
  let Nmom := match c.moments with
    | some ms => ms.length
    | none => 1
  if c.Nfilt.isSome ∧ c.Tfilt.isSome then
    .error "choose one of Nfilt and Tfilt"
  else
    let (filt, nf, tf) := match c.Nfilt, c.Tfilt with
      | some n, _ => (true, n, (0:ℚ))
      | none, some t => (true, 0, t)
      | none, none => (false, 0, 0)
    .ok ⟨NR0, shape, binning, sigR0, muR0, moments, Nmom, filt, nf, tf⟩

/-- `bubble_state.__init__` up to node construction: parse the
configuration, then dispatch on `NR0` and `binning` to build the node
set (weights, radii).  The three non-trivial builders place nodes with
transcendental formulas and are supplied as a parameter; `init_mono` is
inlined as in the source.  An `Except.error` result carries no nodes:
nothing is partially built. -/
def bs_init (build : String → PopParsed → Except String (List ℚ × List ℚ))
    (c : PopConfig) : Except String (PopParsed × List ℚ × List ℚ) :=
  match bs_parse_config c with
  | .error e => .error e
  | .ok p =>
    let nodesE : Except String (List ℚ × List ℚ) :=
      if p.NR0 = 1 then .ok (monoW, [p.muR0])
      else if 1 < p.NR0 then
        if p.binning = "Simpson" then build "Simpson" p
        else if p.binning = "GL" then build "GL" p
        else if p.binning = "GH" then
          if p.shape ≠ "lognormal" then .error "NotImplementedError"
          else build "GH" p
        else .error "NotImplementedError"
      else .error "ValueError: NR0"
    match nodesE with
    | .error e => .error e
    | .ok nodes => .ok (p, nodes)

/-! ### Integrator configuration (`time_advancer.parse_config`,
`set_stepper`, `__init__`) -/

/-- The integrator configuration dictionary. -/
structure TAConfig where
  T : Option ℚ := none
  dt : Option ℚ := none
  method : Option String := none
  error_tol : Option ℚ := none
  Nfilt : Option ℕ := none

/-- The attributes set by `time_advancer.parse_config`. -/
structure TAParsed where
  T : ℚ
  dt : ℚ
  method : String
  error_tol : ℚ
  filter : Bool
  Nfilt : ℕ

/-- The stepping scheme bound by `set_stepper`. -/
inductive Stepper where
  | euler | rk2 | rk3 | rk12 | rk23
deriving DecidableEq

/-- `time_advancer.parse_config`, in source order: `T` (required,
positive), `dt` (required, positive), `method` (defaults to `"Euler"`),
`error_tol` (positive when present; required for the embedded schemes;
otherwise `0.0`), `Nfilt`. -/
def ta_parse_config (c : TAConfig) : Except String TAParsed :=
  match c.T with
  | none => .error "No final time T"
  | some t =>
    if t ≤ 0 then .error "ValueError: T"
    else
      match c.dt with
      | none => .error "No time step dt"
      | some d =>
        if d ≤ 0 then .error "ValueError: dt"
        else
          let method := c.method.getD "Euler"
          let tolE : Except String ℚ :=
            match c.error_tol with
            | some e => if e ≤ 0 then .error "ValueError: error_tol" else .ok e
            | none =>
              if method = "RK23" ∨ method = "RK12" then .error "Need error tolerance"
              else .ok 0
          match tolE with
          | .error e => .error e
          | .ok tol =>
            let (filt, nf) := match c.Nfilt with
              | some n => (true, n)
              | none => (false, 0)
            .ok ⟨t, d, method, tol, filt, nf⟩

/-- `time_advancer.set_stepper`: bind the advance routine and its stage
count from the method string; unknown strings raise
`NotImplementedError`. -/
def set_stepper (m : String) : Except String (Stepper × ℕ) :=
  if m = "Euler" then .ok (.euler, 0)
  else if m = "RK2" then .ok (.rk2, 1)
  else if m = "RK3" then .ok (.rk3, 1)
  else if m = "RK12" then .ok (.rk12, 1)
  else if m = "RK23" then .ok (.rk23, 1)
  else .error "NotImplementedError"

/-- The constructed `time_advancer`. -/
structure TA where
  parsed : TAParsed
  max_time_step : ℚ
  min_time_step : ℚ
  stepper : Stepper
  n_stages : ℕ

/-- `time_advancer.__init__`: parse the configuration, fix
`max_time_step = 1.0e5` and `min_time_step = dt`, bind the stepper. -/
def ta_init (c : TAConfig) : Except String TA :=
  match ta_parse_config c with
  | .error e => .error e
  | .ok p =>
    match set_stepper p.method with
    | .error e => .error e
    | .ok (st, ns) => .ok ⟨p, 100000, p.dt, st, ns⟩

/-! ## Helper lemmas -/

theorem row_add_smul_zero (c : ℚ) (row : List ℚ) :
    List.zipWith (· + ·) row ((row.map (fun _ => (0:ℚ))).map (fun x => c * x)) = row := by
  induction row with
  | nil => rfl
  | cons a t ih => simp only [List.map_cons, List.zipWith_cons_cons, mul_zero, add_zero, ih]

theorem m2_add_smul_zeroRhs (c : ℚ) (v : Vals2) (p : ℚ) :
    m2add v (m2smul c (zeroRhs2 v p)) = v := by
  unfold m2add m2smul zeroRhs2
  induction v with
  | nil => rfl
  | cons r t ih =>
    simp only [List.map_cons, List.zipWith_cons_cons, row_add_smul_zero, ih]

theorem euler_zeroRhs (wave : ℚ → ℚ) (dt t : ℚ) (v : Vals2) :
    euler zeroRhs2 wave dt t v = v := by
  unfold euler
  exact m2_add_smul_zeroRhs dt v (wave t)

theorem row_smul_add (a b : ℚ) (row : List ℚ) :
    List.zipWith (· + ·) (row.map (fun x => a * x)) (row.map (fun x => b * x))
      = row.map (fun x => (a + b) * x) := by
  induction row with
  | nil => rfl
  | cons x t ih => simp only [List.map_cons, List.zipWith_cons_cons, ih, add_mul]

theorem m2add_smul_smul (a b : ℚ) (v : Vals2) :
    m2add (m2smul a v) (m2smul b v) = m2smul (a + b) v := by
  unfold m2add m2smul
  induction v with
  | nil => rfl
  | cons r t ih =>
    simp only [List.map_cons, List.zipWith_cons_cons, row_smul_add, ih]

theorem m2smul_one (v : Vals2) : m2smul 1 v = v := by
  simp [m2smul]

theorem m2smul_smul (a b : ℚ) (v : Vals2) :
    m2smul a (m2smul b v) = m2smul (a * b) v := by
  simp [m2smul, List.map_map, Function.comp_def, mul_assoc]

theorem row_sub_self (row : List ℚ) :
    List.zipWith (· - ·) row row = row.map (fun _ => (0:ℚ)) := by
  induction row with
  | nil => rfl
  | cons x s ih => simp only [List.map_cons, List.zipWith_cons_cons, sub_self, ih]

theorem m2sub_self (v : Vals2) : m2sub v v = v.map (List.map (fun _ => (0:ℚ))) := by
  unfold m2sub
  induction v with
  | nil => rfl
  | cons r t ih =>
    simp only [List.map_cons, List.zipWith_cons_cons, row_sub_self, ih]

theorem sumSq_append (a b : List ℚ) : sumSq (a ++ b) = sumSq a + sumSq b := by
  simp [sumSq]

theorem row_sumSq_zero (row : List ℚ) : sumSq (row.map (fun _ => (0:ℚ))) = 0 := by
  induction row with
  | nil => rfl
  | cons x s ih =>
    simp only [List.map_cons, sumSq, List.sum_cons, mul_zero, zero_add] at ih ⊢
    exact ih

theorem sumSq_zeros (v : Vals2) :
    sumSq (v.map (List.map (fun _ => (0:ℚ)))).flatten = 0 := by
  induction v with
  | nil => rfl
  | cons r t ih =>
    rw [List.map_cons, List.flatten_cons, sumSq_append, row_sumSq_zero, zero_add, ih]

theorem ts_err_self (v : Vals2) : ts_err v v = 0 := by
  unfold ts_err vnorm
  rw [m2sub_self, sumSq_zeros]
  simp

theorem sum_map_div {α : Type} [DivisionRing α] (l : List α) (c : α) :
    (l.map (fun x => x / c)).sum = l.sum / c := by
  induction l with
  | nil => simp
  | cons x t ih => simp [ih, add_div]

theorem sum_range_getD (l : List ℚ) :
    ((List.range l.length).map (fun i => l.getD i 0)).sum = l.sum := by
  induction l with
  | nil => rfl
  | cons a t ih =>
    rw [List.length_cons, List.range_succ_eq_map]
    simpa [List.map_map, Function.comp_def] using ih

theorem getD_set_self (l : List ℚ) (i : ℕ) (a : ℚ) (h : i < l.length) :
    (l.set i a).getD i 0 = a := by
  induction l generalizing i with
  | nil => simp at h
  | cons b t ih =>
    cases i with
    | zero => rfl
    | succ n => simpa using ih n (by simpa using h)

theorem getD_set_ne (l : List ℚ) (i j : ℕ) (a : ℚ) (h : i ≠ j) :
    (l.set i a).getD j 0 = l.getD j 0 := by
  induction l generalizing i j with
  | nil => rfl
  | cons b t ih =>
    cases i with
    | zero =>
      cases j with
      | zero => exact absurd rfl h
      | succ m => rfl
    | succ n =>
      cases j with
      | zero => rfl
      | succ m => simpa using ih n m (by omega)

theorem getD_replicate (N j : ℕ) : (List.replicate N (0:ℚ)).getD j 0 = 0 := by
  induction N generalizing j with
  | zero => rfl
  | succ n ih =>
    cases j with
    | zero => rfl
    | succ m => simpa using ih m

theorem fold_set_length (f : ℕ → ℚ) (l : List ℕ) :
    ∀ d : List ℚ, (l.foldl (fun d i => d.set i (f i)) d).length = d.length := by
  induction l with
  | nil => intro d; rfl
  | cons a t ih => intro d; simpa [List.length_set] using ih (d.set a (f a))

theorem range_fold_set_getD (f : ℕ → ℚ) (N : ℕ) :
    ∀ n j : ℕ, n ≤ N →
      ((List.range n).foldl (fun d i => d.set i (f i)) (List.replicate N (0:ℚ))).getD j 0
        = if j < n then f j else 0 := by
  intro n
  induction n with
  | zero => intro j _; simpa using getD_replicate N j
  | succ n ih =>
    intro j hn
    rw [List.range_succ, List.foldl_append, List.foldl_cons, List.foldl_nil]
    by_cases hj : j = n
    · subst hj
      have hlt : j < ((List.range j).foldl (fun d i => d.set i (f i))
          (List.replicate N (0:ℚ))).length := by
        rw [fold_set_length, List.length_replicate]; omega
      rw [getD_set_self _ _ _ hlt, if_pos (by omega)]
    · rw [getD_set_ne _ _ _ _ (fun hh => hj hh.symm), ih j (by omega)]
      by_cases h2 : j < n
      · rw [if_pos h2, if_pos (by omega)]
      · rw [if_neg h2, if_neg (by omega)]

/-! ## Claims -/

/-- C2 (amended): for every error-fraction value (hence for every error
estimate, including zero and arbitrarily large errors) and every current
step, one call to the step-size adaptation yields a step `dt` with
`dt_configured ≤ dt ≤ 1e5`, provided the originally configured step is at
most `1e5`.  Since this holds for an arbitrary incoming step, it holds
after each call of any adaptive run. -/
theorem adapt_stepsize_bounds (ef dt dtc : ℚ) (h : dtc ≤ 100000) :
    dtc ≤ adapt_stepsize ef dt dtc 100000 ∧ adapt_stepsize ef dt dtc 100000 ≤ 100000 := by
  unfold adapt_stepsize
  exact ⟨le_min (le_max_right _ _) h, min_le_right _ _⟩

/-- Witness for `adapt_stepsize_bounds` at `ef = 0`, `dt = dtc = 1`. -/
theorem adapt_stepsize_bounds_witness :
    (1:ℚ) ≤ 100000 ∧
      (1 ≤ adapt_stepsize 0 1 1 100000 ∧ adapt_stepsize 0 1 1 100000 ≤ 100000) :=
  ⟨by norm_num, adapt_stepsize_bounds 0 1 1 (by norm_num)⟩

/-- Counterexample to C2 as stated: with a configured step of `2e5`
(allowed, since `parse_config` only requires `dt > 0`), one adaptation
call clamps the step to the ceiling `1e5`, strictly below the configured
step, for the realizable error fraction `1` (error `= 0.5 * tol`). -/
theorem adapt_stepsize_below_configured_cex :
    adapt_stepsize 1 200000 200000 100000 = 100000 ∧ ¬ ((200000:ℚ) ≤ 100000) := by
  constructor
  · show min (max ((9:ℚ)/10 * (min (max 1 (3/10)) 2 * 200000)) 200000) 100000 = 100000
    rw [show max (1:ℚ) (3/10) = 1 from max_eq_left (by norm_num)]
    rw [show min (1:ℚ) 2 = 1 from min_eq_left (by norm_num)]
    rw [show (9:ℚ)/10 * (1 * 200000) = 180000 by norm_num]
    rw [show max (180000:ℚ) 200000 = 200000 from max_eq_right (by norm_num)]
    exact min_eq_right (by norm_num)
  · norm_num

/-- Invariant of the `init_GH` Newton loop: from any entry state with
enough fuel, it returns normally after at most `fuel` update steps, the
result being the then-current iterate and the final counter value. -/
theorem ghNewtonGo_spec (g : ℚ → ℚ) :
    ∀ (fuel its : ℕ) (z z1 : ℚ), 102 ≤ its + fuel → 0 < fuel →
      ∃ j, j < fuel ∧ ghNewtonGo g fuel its z z1 = (g^[j] z, its + j) := by
  intro fuel
  induction fuel with
  | zero => intro its z z1 _ h0; omega
  | succ fuel ih =>
    intro its z z1 hle _
    unfold ghNewtonGo
    by_cases hc : 100 < its ∨ |z - z1| ≤ psmall
    · exact ⟨0, by omega, by simp [hc]⟩
    · have hits : its ≤ 100 := by
        rcases not_or.mp hc with ⟨h1, _⟩; omega
      have hf : 0 < fuel := by omega
      obtain ⟨j, hj, hgo⟩ := ih (its + 1) (g z) z (by omega) hf
      refine ⟨j + 1, by omega, ?_⟩
      rw [if_neg hc, hgo, Function.iterate_succ_apply]
      exact congrArg _ (by omega)

/-- C3 (amended): the Gauss-Hermite Newton loop never fails.  Whatever
the Newton update map and the seed, the loop returns normally with at
most 100 update steps taken, and the returned (possibly unconverged)
iterate is stored as the root; no `RootFindingDivergence` (or any other)
error is raised. -/
theorem init_GH_newton_silently_accepts (g : ℚ → ℚ) (z : ℚ) :
    ∃ k, k ≤ 100 ∧ ghNewtonLoop g z = (g^[k] z, 1 + k) := by
  obtain ⟨j, hj, h⟩ := ghNewtonGo_spec g 101 1 z 0 (by norm_num) (by norm_num)
  exact ⟨j, by omega, h⟩

/-- For the divergent Newton map `w ↦ w + 1`, successive iterates always
differ by exactly `1`, so the loop runs to the iteration cap and returns
the current iterate with `its = 101`. -/
theorem ghNewtonGo_affine (fuel its : ℕ) (z : ℚ) (h : 102 ≤ its + fuel) (h1 : its ≤ 101) :
    ghNewtonGo (fun w => w + 1) fuel its z (z - 1) = (z + ((101 - its : ℕ) : ℚ), 101) := by
  induction fuel generalizing its z with
  | zero => omega
  | succ fuel ih =>
    unfold ghNewtonGo
    by_cases hc : its = 101
    · subst hc
      rw [if_pos (Or.inl (by omega))]
      norm_num
    · have hguard : ¬ (100 < its ∨ |z - (z - 1)| ≤ psmall) := by
        push_neg
        refine ⟨by omega, ?_⟩
        rw [show z - (z - 1) = 1 by ring, abs_one]
        rw [show psmall = 3 / 10 ^ 14 from rfl]
        norm_num
      rw [if_neg hguard]
      have h2 := ih (its + 1) (z + 1) (by omega) (by omega)
      rw [show (z + 1) - 1 = z by ring] at h2
      show ghNewtonGo (fun w => w + 1) fuel (its + 1) (z + 1) z = _
      rw [h2]
      have hsub : (101 - (its + 1) : ℕ) = 100 - its := by omega
      rw [hsub]
      have c1 : ((100 - its : ℕ) : ℚ) = 100 - (its : ℚ) := by
        push_cast [Nat.cast_sub (by omega : its ≤ 100)]; ring
      have c2 : ((101 - its : ℕ) : ℚ) = 101 - (its : ℚ) := by
        push_cast [Nat.cast_sub (by omega : its ≤ 101)]; ring
      rw [c1, c2]
      refine congrArg (fun q => (q, 101)) ?_
      ring

/-- Counterexample to C3 as stated: for the divergent Newton map
`w ↦ w + 1` from seed `1`, successive updates always differ by `1`
(never within `psmall`), the iteration cap elapses (`its` reaches 101),
and yet the loop returns the unconverged root `101` normally instead of
failing. -/
theorem init_GH_newton_no_error_cex :
    ghNewtonLoop (fun w => w + 1) 1 = (101, 101) ∧ ¬ (|(101:ℚ) - 100| ≤ psmall) := by
  constructor
  · unfold ghNewtonLoop
    have h := ghNewtonGo_affine 101 1 1 (by omega) (by omega)
    rw [show (1:ℚ) - 1 = 0 by ring] at h
    rw [h]
    norm_num
  · rw [show |(101:ℚ) - 100| = 1 by norm_num, show psmall = 3 / 10 ^ 14 from rfl]
    norm_num

/-- C10: under the Simpson rule the spacing used for the last node's
weight equals the spacing between the last two nodes,
`dR0[N-1] = dR0[N-2] = R0[N-1] - R0[N-2]`, and every node `i < N-1`
uses the forward spacing `R0[i+1] - R0[i]`. -/
theorem init_simp_dR0_spec (R0 : List ℚ) (h2 : 2 ≤ R0.length) :
    (mk_dR0 R0).getD (R0.length - 1) 0
        = R0.getD (R0.length - 1) 0 - R0.getD (R0.length - 2) 0
      ∧ ∀ i, i < R0.length - 1 →
        (mk_dR0 R0).getD i 0 = R0.getD (i + 1) 0 - R0.getD i 0 := by
  unfold mk_dR0
  have hlen :
      ((List.range (R0.length - 1)).foldl
        (fun d i => d.set i (R0.getD (i + 1) 0 - R0.getD i 0))
        (List.replicate R0.length 0)).length = R0.length := by
    rw [fold_set_length]; simp
  constructor
  · rw [getD_set_self _ _ _ (by rw [hlen]; omega)]
    rw [range_fold_set_getD _ _ _ _ (by omega)]
    rw [if_pos (by omega : R0.length - 2 < R0.length - 1)]
    rw [show R0.length - 2 + 1 = R0.length - 1 by omega]
  · intro i hi
    rw [getD_set_ne _ _ _ _ (by omega : R0.length - 1 ≠ i)]
    rw [range_fold_set_getD _ _ _ _ (by omega)]
    rw [if_pos hi]

/-- With a stepper that leaves the state unchanged, the run loop returns
the recorded times, one state snapshot per recorded time (all equal to
the initial table), and the initial table as final state. -/
theorem run_id_adv (fuel : ℕ) :
    ∀ (T dt t : ℕ) (v : Vals2) (adv : ℕ → Vals2 → Vals2), (∀ s w, adv s w = w) →
      run fuel T dt t v adv
        = (runTimes fuel T dt t, List.replicate (runTimes fuel T dt t).length v, v) := by
  induction fuel with
  | zero => intros; rfl
  | succ n ih =>
    intro T dt t v adv h
    simp only [run, runTimes]
    rw [h t v]
    by_cases hc : T ≤ fp64add56 t dt
    · simp only [if_pos hc]
      rfl
    · simp only [if_neg hc]
      rw [ih T dt (fp64add56 t dt) v adv h]
      simp [List.replicate_succ]

/-- C1 (amended): in the round-trip scenario (`T = 1`, `dt = 0.1`,
`method = Euler`, zero-RHS model, any initial state table, e.g. the
`NR0 = 5` lognormal/Simpson one), the run loop records exactly 11
(time, state-snapshot) entries — not 10, because the binary64
accumulation of `0.1` reaches only `0.9999999999999999 < 1` after ten
steps — the first recorded time is 0, and the final state table equals
the initial one. -/
theorem run_roundtrip_euler_zero_rhs (v : Vals2) (wave : ℚ → ℚ) (dtq : ℚ) :
    (run 20 oneScaled dtScaled 0 v (fun tk w => euler zeroRhs2 wave dtq (tk : ℚ) w)).1.length = 11
    ∧ (run 20 oneScaled dtScaled 0 v (fun tk w => euler zeroRhs2 wave dtq (tk : ℚ) w)).2.1.length = 11
    ∧ (run 20 oneScaled dtScaled 0 v (fun tk w => euler zeroRhs2 wave dtq (tk : ℚ) w)).1.head? = some 0
    ∧ (run 20 oneScaled dtScaled 0 v (fun tk w => euler zeroRhs2 wave dtq (tk : ℚ) w)).2.2 = v := by
  have hadv : ∀ (s : ℕ) (w : Vals2), euler zeroRhs2 wave dtq (s : ℚ) w = w :=
    fun s w => euler_zeroRhs wave dtq (s : ℚ) w
  rw [run_id_adv 20 oneScaled dtScaled 0 v _ hadv]
  refine ⟨?_, ?_, ?_, rfl⟩
  · show (runTimes 20 oneScaled dtScaled 0).length = 11
    decide
  · show (List.replicate (runTimes 20 oneScaled dtScaled 0).length v).length = 11
    rw [List.length_replicate]
    decide
  · show (runTimes 20 oneScaled dtScaled 0).head? = some 0
    decide

/-- Counterexample to C1 as stated: under binary64 time accumulation the
round-trip run records 11 entries, not 10 (after ten steps the
accumulated time is `0.9999999999999999 < 1`, so an eleventh iteration
runs). -/
theorem run_records_eleven_not_ten_cex :
    (run 20 oneScaled dtScaled 0 [[1]]
        (fun tk w => euler zeroRhs2 (fun _ => 0) (1/10) (tk : ℚ) w)).1.length = 11
    ∧ ¬ ((run 20 oneScaled dtScaled 0 [[1]]
        (fun tk w => euler zeroRhs2 (fun _ => 0) (1/10) (tk : ℚ) w)).1.length = 10) := by
  have hadv : ∀ (s : ℕ) (w : Vals2), euler zeroRhs2 (fun _ => (0:ℚ)) (1/10) (s : ℚ) w = w :=
    fun s w => euler_zeroRhs _ _ _ w
  rw [run_id_adv 20 oneScaled dtScaled 0 [[1]] _ hadv]
  constructor
  · show (runTimes 20 oneScaled dtScaled 0).length = 11
    decide
  · show ¬ ((runTimes 20 oneScaled dtScaled 0).length = 10)
    decide

/-- C4 (amended): for `RK12` and `RK23`, whenever the right-hand side is
identically zero (and the state table is not identically zero, so the
relative error norm is well defined), the fine and coarse embedded
estimates coincide and the computed relative error is exactly 0, for any
forcing function.  (For a general linear homogeneous RHS the estimates
differ, see the counterexample.) -/
theorem rk_embedded_error_zero_rhs (wave : ℚ → ℚ) (dt t : ℚ) (f0 : Vals2)
    (h : sumSq f0.flatten ≠ 0) :
    ts_err (rk12 zeroRhs2 wave dt t f0).1 (rk12 zeroRhs2 wave dt t f0).2 = 0
    ∧ ts_err (rk23 zeroRhs2 wave dt t f0).1 (rk23 zeroRhs2 wave dt t f0).2 = 0 := by
  have h12 : rk12 zeroRhs2 wave dt t f0 = (f0, f0) := by
    simp only [rk12, m2_add_smul_zeroRhs, m2add_smul_smul]
    rw [show (1:ℚ)/2 + 1/2 = 1 by norm_num]
    simp only [m2smul_one]
  have h23 : rk23 zeroRhs2 wave dt t f0 = (f0, f0) := by
    simp only [rk23, m2_add_smul_zeroRhs, m2add_smul_smul, m2smul_smul]
    rw [show (1:ℚ)/3 + 2/3 * (3/4 + 1/4) = 1 by norm_num]
    rw [show (1:ℚ)/2 + 1/2 = 1 by norm_num]
    simp only [m2smul_one]
  constructor
  · rw [h12]; exact ts_err_self f0
  · rw [h23]; exact ts_err_self f0

/-- Witness for `rk_embedded_error_zero_rhs` at `f0 = [[1]]`,
constant forcing `5`, `dt = 1/2`. -/
theorem rk_embedded_error_zero_rhs_witness :
    sumSq ([[1]] : Vals2).flatten ≠ 0
    ∧ (ts_err (rk12 zeroRhs2 (fun _ => 5) (1/2) 0 [[1]]).1
          (rk12 zeroRhs2 (fun _ => 5) (1/2) 0 [[1]]).2 = 0
      ∧ ts_err (rk23 zeroRhs2 (fun _ => 5) (1/2) 0 [[1]]).1
          (rk23 zeroRhs2 (fun _ => 5) (1/2) 0 [[1]]).2 = 0) := by
  have hne : sumSq ([[1]] : Vals2).flatten ≠ 0 := by norm_num [sumSq]
  exact ⟨hne, rk_embedded_error_zero_rhs (fun _ => 5) (1/2) 0 [[1]] hne⟩

/-- Counterexample to C4 as stated: with the constant forcing `p ≡ 0` and
the linear homogeneous RHS `f(x) = x` (one node, one component, state 1,
`dt = 1`), the embedded estimates differ — RK12 yields fine `5/2` vs
coarse `2` (relative error `1/5`), RK23 yields fine `8/3` vs coarse
`5/2` (relative error `1/16`) — so the computed error is not 0. -/
theorem rk_embedded_error_nonzero_cex :
    ts_err (rk12 (fun w _ => w) (fun _ => 0) 1 0 [[1]]).1
        (rk12 (fun w _ => w) (fun _ => 0) 1 0 [[1]]).2 ≠ 0
    ∧ ts_err (rk23 (fun w _ => w) (fun _ => 0) 1 0 [[1]]).1
        (rk23 (fun w _ => w) (fun _ => 0) 1 0 [[1]]).2 ≠ 0 := by
  have h12 : rk12 (fun w _ => w) (fun _ => (0:ℚ)) 1 0 [[1]] = ([[5/2]], [[2]]) := by
    simp [rk12, m2add, m2smul]
    norm_num
  have h23 : rk23 (fun w _ => w) (fun _ => (0:ℚ)) 1 0 [[1]] = ([[8/3]], [[5/2]]) := by
    simp [rk23, m2add, m2smul]
    norm_num
  constructor
  · rw [h12]
    show ts_err [[(5:ℚ)/2]] [[2]] ≠ 0
    unfold ts_err vnorm
    rw [show m2sub [[(5:ℚ)/2]] [[2]] = [[1/2]] by simp [m2sub]; norm_num]
    rw [show sumSq ([[(1:ℚ)/2]] : Vals2).flatten = 1/4 by norm_num [sumSq]]
    rw [show sumSq ([[(5:ℚ)/2]] : Vals2).flatten = 25/4 by norm_num [sumSq]]
    have hpos : (0:ℝ) < Real.sqrt (((1:ℚ)/4 : ℚ) : ℝ) / Real.sqrt (((25:ℚ)/4 : ℚ) : ℝ) :=
      div_pos (Real.sqrt_pos.mpr (by exact_mod_cast (by norm_num : (0:ℚ) < 1/4)))
        (Real.sqrt_pos.mpr (by exact_mod_cast (by norm_num : (0:ℚ) < 25/4)))
    exact hpos.ne'
  · rw [h23]
    show ts_err [[(8:ℚ)/3]] [[5/2]] ≠ 0
    unfold ts_err vnorm
    rw [show m2sub [[(8:ℚ)/3]] [[5/2]] = [[1/6]] by simp [m2sub]; norm_num]
    rw [show sumSq ([[(1:ℚ)/6]] : Vals2).flatten = 1/36 by norm_num [sumSq]]
    rw [show sumSq ([[(8:ℚ)/3]] : Vals2).flatten = 64/9 by norm_num [sumSq]]
    have hpos : (0:ℝ) < Real.sqrt (((1:ℚ)/36 : ℚ) : ℝ) / Real.sqrt (((64:ℚ)/9 : ℚ) : ℝ) :=
      div_pos (Real.sqrt_pos.mpr (by exact_mod_cast (by norm_num : (0:ℚ) < 1/36)))
        (Real.sqrt_pos.mpr (by exact_mod_cast (by norm_num : (0:ℚ) < 64/9)))
    exact hpos.ne'

/-- Adjacent strict decrease of the mirrored Gauss-Hermite root array,
assuming the computed half-roots are strictly decreasing, the smallest
is nonnegative, and (for even `Npt`) positive. -/
theorem ghFullRoot_step (Npt : ℕ) (z : ℕ → ℝ)
    (hdec : ∀ i j, i < j → j < (Npt + 1) / 2 → z j < z i)
    (hlast : 0 ≤ z ((Npt + 1) / 2 - 1))
    (heven : Npt % 2 = 0 → 0 < z ((Npt + 1) / 2 - 1)) :
    ∀ p, p + 1 < Npt → ghFullRoot Npt z (p + 1) < ghFullRoot Npt z p := by
  intro p hp
  unfold ghFullRoot
  by_cases h1 : p + 1 < Npt / 2
  · rw [if_pos h1, if_pos (by omega)]
    exact hdec p (p + 1) (by omega) (by omega)
  · by_cases h0 : p < Npt / 2
    · rw [if_neg h1, if_pos h0]
      rcases Nat.even_or_odd Npt with he | ho
      · have hm : Npt % 2 = 0 := Nat.even_iff.mp he
        have hidx : Npt - 1 - (p + 1) = p := by omega
        have hpm : (Npt + 1) / 2 - 1 = p := by omega
        rw [hidx]
        have hz := heven hm
        rw [hpm] at hz
        linarith
      · have hodd : Npt % 2 = 1 := Nat.odd_iff.mp ho
        have hidx : Npt - 1 - (p + 1) = p + 1 := by omega
        rw [hidx]
        have hz1 : z (p + 1) < z p := hdec p (p + 1) (by omega) (by omega)
        have hz0 : 0 ≤ z (p + 1) := by
          have hpm : (Npt + 1) / 2 - 1 = p + 1 := by omega
          rw [hpm] at hlast
          exact hlast
        linarith
    · rw [if_neg h1, if_neg h0]
      have hlt := hdec (Npt - 1 - (p + 1)) (Npt - 1 - p) (by omega) (by omega)
      linarith

/-- Strict decrease of the mirrored Gauss-Hermite root array across any
distance. -/
theorem ghFullRoot_anti (Npt : ℕ) (z : ℕ → ℝ)
    (hdec : ∀ i j, i < j → j < (Npt + 1) / 2 → z j < z i)
    (hlast : 0 ≤ z ((Npt + 1) / 2 - 1))
    (heven : Npt % 2 = 0 → 0 < z ((Npt + 1) / 2 - 1)) :
    ∀ a b, a < b → b < Npt → ghFullRoot Npt z b < ghFullRoot Npt z a := by
  intro a b hab hb
  induction b with
  | zero => omega
  | succ n ih =>
    rcases Nat.lt_succ_iff_lt_or_eq.mp hab with h | h
    · exact lt_trans (ghFullRoot_step Npt z hdec hlast heven n (by omega)) (ih h (by omega))
    · subst h
      exact ghFullRoot_step Npt z hdec hlast heven a (by omega)

/-- C5: for every node count `Npt ≥ 2` and positive `sigR0`, the final
Gauss-Hermite radii array — obtained by mapping the computed roots
through `radius = exp(sqrt 2 * sigR0 * root)` and then applying the
mirrored re-sort — is strictly monotonically increasing, given that the
half-roots computed by the Newton solver are strictly decreasing and
nonnegative (positive for even `Npt`), which is the delivered order of
Gauss-Hermite roots (largest first, the middle root of an odd count
being zero). -/
theorem init_GH_radii_increasing (sigR0 : ℝ) (Npt : ℕ) (z : ℕ → ℝ)
    (hN : 2 ≤ Npt) (hs : 0 < sigR0)
    (hdec : ∀ i j, i < j → j < (Npt + 1) / 2 → z j < z i)
    (hlast : 0 ≤ z ((Npt + 1) / 2 - 1))
    (heven : Npt % 2 = 0 → 0 < z ((Npt + 1) / 2 - 1)) :
    ∀ p q, p < q → q < Npt → ghRadius sigR0 Npt z p < ghRadius sigR0 Npt z q := by
  intro p q hpq hq
  unfold ghRadius ghRadiusPre
  apply Real.exp_lt_exp.mpr
  apply mul_lt_mul_of_pos_left _ (mul_pos (Real.sqrt_pos.mpr (by norm_num : (0:ℝ) < 2)) hs)
  exact ghFullRoot_anti Npt z hdec hlast heven (Npt - 1 - q) (Npt - 1 - p) (by omega) (by omega)

/-- Witness for `init_GH_radii_increasing`: `Npt = 2`, `sigR0 = 1`,
half-root list `z ≡ 1`. -/
theorem init_GH_radii_increasing_witness :
    ghRadius 1 2 (fun _ => 1) 0 < ghRadius 1 2 (fun _ => 1) 1 :=
  init_GH_radii_increasing 1 2 (fun _ => 1) (by norm_num) (by norm_num)
    (fun i j hij hj => absurd hij (by omega))
    (by norm_num) (fun _ => by norm_num) 0 1 (by norm_num) (by norm_num)

/-- C6: the zeroth moment (`p = q = 0`) in plain mode reduces to the
weight sum, which is exactly 1 for every normalized rule: `get_quad` on
the moment list `[[0, 0]]` returns `[sum w]`; the shared normalization
`w /= sum(w)` of `init_simp` and `init_GL` makes the weights sum to 1
whenever the pre-normalization sum is nonzero; `init_mono` weights sum
to 1; and the `1/sqrt pi`-normalized Gauss-Hermite weights sum to 1
whenever the raw weights `2 / pp^2` sum to `sqrt pi` (the Hermite weight
normalization delivered by exact roots). -/
theorem zeroth_moment_one :
    (∀ (w R0 : List ℚ) (vals : Vals2),
      (get_quad_plain ⟨w, R0, [[0, 0]], 1, 2, w.length⟩ vals).2.2 = .ok [w.sum])
    ∧ (∀ w : List ℚ, w.sum ≠ 0 → (normalizeW w).sum = 1)
    ∧ monoW.sum = 1
    ∧ (∀ raw : List ℝ, raw.sum = Real.sqrt Real.pi → (ghNormalizeW raw).sum = 1) := by
  refine ⟨?_, ?_, by norm_num [monoW], ?_⟩
  · intro w R0 vals
    have h0 : (get_quad_plain ⟨w, R0, [[0, 0]], 1, 2, w.length⟩ vals).2.2
        = .ok [((List.range w.length).map
            (fun i => w.getD i 0 * idx2 vals i 0 ^ (0:ℕ) * idx2 vals i 1 ^ (0:ℕ))).sum] := rfl
    rw [h0]
    simp only [pow_zero, mul_one, sum_range_getD]
  · intro w h
    unfold normalizeW
    rw [sum_map_div]
    exact div_self h
  · intro raw h
    unfold ghNormalizeW
    rw [sum_map_div, h]
    exact div_self (Real.sqrt_ne_zero'.mpr Real.pi_pos)

/-- Witness for `zeroth_moment_one`: a two-node quadrature with weights
`[2/3, 1/3]`, the normalization of `[1, 3]`, and the Gauss-Hermite
normalization of the singleton raw list `[sqrt pi]`. -/
theorem zeroth_moment_one_witness :
    (get_quad_plain ⟨[2/3, 1/3], [1, 2], [[0, 0]], 1, 2, 2⟩ [[5, 7], [0, 2]]).2.2
        = .ok [1]
    ∧ (normalizeW [1, 3]).sum = 1
    ∧ (ghNormalizeW [Real.sqrt Real.pi]).sum = 1 := by
  refine ⟨?_, ?_, ?_⟩
  · have h := zeroth_moment_one.1 [2/3, 1/3] [1, 2] [[5, 7], [0, 2]]
    exact h.trans (show Except.ok [([2/3, 1/3] : List ℚ).sum] = Except.ok [1] by norm_num)
  · exact zeroth_moment_one.2.1 [1, 3] (by norm_num)
  · exact zeroth_moment_one.2.2.2 [Real.sqrt Real.pi] (by simp)

/-- The plain-mode loop writes only the output array: the context and
the passed values of any successful run are the ones it started from. -/
theorem quadPlainGo_frame (l : List (ℕ × List ℕ)) :
    ∀ (acc r : QuadAcc Vals2), quadPlainGo acc l = .ok r →
      r.1 = acc.1 ∧ r.2.1 = acc.2.1 := by
  induction l with
  | nil =>
    intro acc r h
    simp only [quadPlainGo] at h
    injection h with h
    subst h
    exact ⟨rfl, rfl⟩
  | cons a rest ih =>
    intro acc r h
    obtain ⟨k, mom⟩ := a
    simp only [quadPlainGo] at h
    split_ifs at h <;>
      first
        | exact Except.noConfusion h
        | exact ⟨(ih _ _ h).1, (ih _ _ h).2⟩

/-- The ensemble-filtered loop writes only the output array. -/
theorem quadNfiltGo_frame (Nfilt : ℕ) (l : List (ℕ × List ℕ)) :
    ∀ (acc r : QuadAcc Vals3), quadNfiltGo Nfilt acc l = .ok r →
      r.1 = acc.1 ∧ r.2.1 = acc.2.1 := by
  induction l with
  | nil =>
    intro acc r h
    simp only [quadNfiltGo] at h
    injection h with h
    subst h
    exact ⟨rfl, rfl⟩
  | cons a rest ih =>
    intro acc r h
    obtain ⟨k, mom⟩ := a
    simp only [quadNfiltGo] at h
    split_ifs at h <;>
      first
        | exact Except.noConfusion h
        | exact ⟨(ih _ _ h).1, (ih _ _ h).2⟩

/-- The time-filtered loop writes only the output array. -/
theorem quadTfiltGo_frame (getG : Vals3 → List ℕ → ℕ → List ℤ → ℕ → List ℚ)
    (shifts : List ℤ) (l : List (ℕ × List ℕ)) :
    ∀ (acc r : QuadAcc Vals3), quadTfiltGo getG shifts acc l = .ok r →
      r.1 = acc.1 ∧ r.2.1 = acc.2.1 := by
  induction l with
  | nil =>
    intro acc r h
    simp only [quadTfiltGo] at h
    injection h with h
    subst h
    exact ⟨rfl, rfl⟩
  | cons a rest ih =>
    intro acc r h
    obtain ⟨k, mom⟩ := a
    simp only [quadTfiltGo] at h
    split_ifs at h <;>
      first
        | exact Except.noConfusion h
        | exact ⟨(ih _ _ h).1, (ih _ _ h).2⟩

/-- C7: in each of the three modes of `get_quad` (plain,
ensemble-filtered, time-filtered), the quadrature weights, the radii
array and the passed ensemble values are unchanged by the call: the
moment estimator only reads ensemble data. -/
theorem get_quad_preserves_ensemble :
    (∀ (c : QuadCtx) (v : Vals2),
      (get_quad_plain c v).1 = c ∧ (get_quad_plain c v).2.1 = v)
    ∧ (∀ (c : QuadCtx) (n : ℕ) (v : Vals3),
      (get_quad_Nfilt c n v).1 = c ∧ (get_quad_Nfilt c n v).2.1 = v)
    ∧ (∀ (c : QuadCtx) (getG : Vals3 → List ℕ → ℕ → List ℤ → ℕ → List ℚ)
        (shifts : List ℤ) (v : Vals3),
      (get_quad_Tfilt c getG shifts v).1 = c ∧ (get_quad_Tfilt c getG shifts v).2.1 = v) := by
  refine ⟨fun c v => ?_, fun c n v => ?_, fun c g s v => ?_⟩
  · unfold get_quad_plain
    cases hgo : quadPlainGo (c, v, List.replicate c.Nmom 0) c.moments.enum with
    | ok acc' =>
      obtain ⟨c', v', ret⟩ := acc'
      have hf := quadPlainGo_frame _ _ _ hgo
      exact ⟨hf.1, hf.2⟩
    | error e => exact ⟨rfl, rfl⟩
  · unfold get_quad_Nfilt
    cases hgo : quadNfiltGo n (c, v, List.replicate c.Nmom 0) c.moments.enum with
    | ok acc' =>
      obtain ⟨c', v', ret⟩ := acc'
      have hf := quadNfiltGo_frame _ _ _ _ hgo
      exact ⟨hf.1, hf.2⟩
    | error e => exact ⟨rfl, rfl⟩
  · unfold get_quad_Tfilt
    cases hgo : quadTfiltGo g s (c, v, List.replicate c.Nmom 0) c.moments.enum with
    | ok acc' =>
      obtain ⟨c', v', ret⟩ := acc'
      have hf := quadTfiltGo_frame _ _ _ _ _ hgo
      exact ⟨hf.1, hf.2⟩
    | error e => exact ⟨rfl, rfl⟩

/-- C8: whenever both `Nfilt` and `Tfilt` are present in the population
configuration, construction fails with the conflicting-filter error, for
every possible node builder — so the failure happens in `parse_config`,
before any node (weight, radius, or per-node model) is constructed, and
the error result carries no partially built state. -/
theorem bs_init_conflicting_filter
    (build : String → PopParsed → Except String (List ℚ × List ℚ))
    (c : PopConfig) (nf : ℕ) (tf : ℚ)
    (hN : c.Nfilt = some nf) (hT : c.Tfilt = some tf) :
    bs_init build c = .error "choose one of Nfilt and Tfilt" := by
  unfold bs_init bs_parse_config
  rw [hN, hT]
  rfl

/-- Witness for `bs_init_conflicting_filter` with both filter keys set
to `1` and a builder that would succeed with empty nodes. -/
theorem bs_init_conflicting_filter_witness :
    (⟨none, none, none, none, none, none, some 1, some 1⟩ : PopConfig).Nfilt = some 1
    ∧ (⟨none, none, none, none, none, none, some 1, some 1⟩ : PopConfig).Tfilt = some 1
    ∧ bs_init (fun _ _ => .ok ([], []))
        ⟨none, none, none, none, none, none, some 1, some 1⟩
        = .error "choose one of Nfilt and Tfilt" :=
  ⟨rfl, rfl, bs_init_conflicting_filter _ _ 1 1 rfl rfl⟩

/-- Counterexample to C9 as stated: a configuration with valid `T` and
`dt` and no `method` key can still fail construction — not because of
the missing method, but because it supplies a non-positive
`error_tol`. -/
theorem ta_init_missing_method_cex :
    ta_init ⟨some 1, some 1, none, some (-1), none⟩ = .error "ValueError: error_tol" := by
  rfl

/-- C9 (amended): for every integrator configuration that supplies valid
`T` and `dt`, omits the `method` key, and whose `error_tol`, if present,
is positive, construction succeeds and selects the Euler scheme with 0
extra stages (no error is raised for the missing method). -/
theorem ta_init_missing_method_euler (c : TAConfig) (t d : ℚ)
    (hT : c.T = some t) (ht : 0 < t) (hd : c.dt = some d) (hdp : 0 < d)
    (hm : c.method = none) (htol : ∀ e, c.error_tol = some e → 0 < e) :
    ∃ ta, ta_init c = .ok ta ∧ ta.parsed.method = "Euler"
      ∧ ta.stepper = Stepper.euler ∧ ta.n_stages = 0 := by
  obtain ⟨cT, cdt, cm, ce, cn⟩ := c
  simp only at hT hd hm htol
  subst hT
  subst hd
  subst hm
  cases ce with
  | none =>
    cases cn with
    | none =>
      refine ⟨⟨⟨t, d, "Euler", 0, false, 0⟩, 100000, d, .euler, 0⟩, ?_, rfl, rfl, rfl⟩
      have hp : ta_parse_config ⟨some t, some d, none, none, none⟩
          = .ok ⟨t, d, "Euler", 0, false, 0⟩ := by
        simp only [ta_parse_config]
        rw [if_neg (not_le.mpr ht), if_neg (not_le.mpr hdp)]
        rfl
      unfold ta_init
      rw [hp]
      rfl
    | some n =>
      refine ⟨⟨⟨t, d, "Euler", 0, true, n⟩, 100000, d, .euler, 0⟩, ?_, rfl, rfl, rfl⟩
      have hp : ta_parse_config ⟨some t, some d, none, none, some n⟩
          = .ok ⟨t, d, "Euler", 0, true, n⟩ := by
        simp only [ta_parse_config]
        rw [if_neg (not_le.mpr ht), if_neg (not_le.mpr hdp)]
        rfl
      unfold ta_init
      rw [hp]
      rfl
  | some e =>
    have he : 0 < e := htol e rfl
    cases cn with
    | none =>
      refine ⟨⟨⟨t, d, "Euler", e, false, 0⟩, 100000, d, .euler, 0⟩, ?_, rfl, rfl, rfl⟩
      have hp : ta_parse_config ⟨some t, some d, none, some e, none⟩
          = .ok ⟨t, d, "Euler", e, false, 0⟩ := by
        simp only [ta_parse_config]
        rw [if_neg (not_le.mpr ht), if_neg (not_le.mpr hdp), if_neg (not_le.mpr he)]
        rfl
      unfold ta_init
      rw [hp]
      rfl
    | some n =>
      refine ⟨⟨⟨t, d, "Euler", e, true, n⟩, 100000, d, .euler, 0⟩, ?_, rfl, rfl, rfl⟩
      have hp : ta_parse_config ⟨some t, some d, none, some e, some n⟩
          = .ok ⟨t, d, "Euler", e, true, n⟩ := by
        simp only [ta_parse_config]
        rw [if_neg (not_le.mpr ht), if_neg (not_le.mpr hdp), if_neg (not_le.mpr he)]
        rfl
      unfold ta_init
      rw [hp]
      rfl

/-- Witness for `ta_init_missing_method_euler` at the configuration
`{T = 1, dt = 1/2}`. -/
theorem ta_init_missing_method_euler_witness :
    (0:ℚ) < 1
    ∧ ∃ ta, ta_init ⟨some 1, some (1/2), none, none, none⟩ = .ok ta
        ∧ ta.parsed.method = "Euler" ∧ ta.stepper = Stepper.euler ∧ ta.n_stages = 0 :=
  ⟨by norm_num,
    ta_init_missing_method_euler ⟨some 1, some (1/2), none, none, none⟩ 1 (1/2)
      rfl (by norm_num) rfl (by norm_num) rfl
      (fun e h => Option.noConfusion h)⟩

/-- Witness for `init_simp_dR0_spec` at `R0 = [1, 2, 4]`:
`dR0 = [1, 2, 2]`. -/
theorem init_simp_dR0_spec_witness :
    2 ≤ ([1, 2, 4] : List ℚ).length
      ∧ (mk_dR0 [1, 2, 4]).getD 2 0 = 2 ∧ (mk_dR0 [1, 2, 4]).getD 0 0 = 1 := by
  have h := init_simp_dR0_spec [1, 2, 4] (by norm_num)
  refine ⟨by norm_num, ?_, ?_⟩
  · have h1 := h.1
    norm_num at h1
    exact h1
  · have h1 := h.2 0 (by norm_num)
    norm_num at h1
    exact h1

end PyCav
